import Mathlib

/-!
Verification of the `TrackContainer` core (src/unnamed/part_000, i.e.
TrackContainer.cpp) and of the Looper tool plugin (src/plugins/looper) of
this LMMS fork.  The C++ code is shallowly embedded: machine ints become
`Int`, `QVector<Track*>` becomes a `List` of track values carrying an `id`
that stands for the pointer, and Qt side effects (signals, lock calls) are
reified into explicit result fields.
-/

namespace LMMS

/-- Track types of `Track::TrackTypes` (Track.h); `NumTrackTypes` is the
sentinel that `countTracks` accepts to count every type. -/
inductive TrackType where
  | InstrumentTrack
  | BBTrack
  | SampleTrack
  | EventTrack
  | VideoTrack
  | AutomationTrack
  | HiddenAutomationTrack
  | NumTrackTypes
  deriving DecidableEq, Repr

/-- Automated value map, `AutomatedValueMap = QMap<AutomatableModel*, float>`:
keys model the `AutomatableModel*` pointers, values the automation value. -/
abbrev AVMap := List (Nat × Int)

/-- QMap assignment `map[key] = value`: overwrite the entry if the key is
present, otherwise insert it keeping the keys in increasing order (QMap
iterates its keys in order). -/
def avSet : AVMap → Nat → Int → AVMap
  | [], k, v => [(k, v)]
  | (k0, v0) :: rest, k, v =>
    if k = k0 then (k0, v) :: rest
    else if k < k0 then (k, v) :: (k0, v0) :: rest
    else (k0, v0) :: avSet rest k v

/-- The dynamic type of a clip, as discriminated by the `dynamic_cast`s in
`automatedValuesFromTracks`: an `AutomationClip` (with its automation flag,
auto-resize flag, value function and connected model objects), a `BBClip`
(with the index of its BB track), or any other clip kind. -/
inductive ClipKind where
  | automation (hasAutomation : Bool) (autoResize : Bool)
      (valueAt : Int → Int) (objects : List Nat)
  | bb (bbIndex : Int)
  | other

/-- A clip (`Clip`): mute flag, start position and length in ticks. -/
structure Clip where
  muted : Bool
  startPosition : Int
  length : Int
  kind : ClipKind

/-- A track (`Track*`): `id` stands for the pointer identity; the remaining
fields are the state read by the excerpted functions.  `savedState` is the
serialized form that `Track::saveState` (JournallingObject, outside the
excerpt) appends as one child element. -/
structure Track where
  id : Nat
  ttype : TrackType
  muted : Bool
  solo : Bool
  clips : List Clip
  savedState : String

/-- The engine-global BB track container used by the BB branch of
`automatedValuesFromTracks`: `Engine::getBBTrackContainer()->lengthOfBB`,
`->automatedValuesAt`, and the constant `TimePos::ticksPerBar()`. -/
structure BBEnv where
  lengthOfBB : Int → Int
  bbValuesAt : Int → Int → AVMap
  ticksPerBar : Int

/-- Modelled from the spec: `Track::getClipsInRange` (Track.cpp, outside the
excerpt) appends every clip of the track whose span overlaps the closed
interval from `first` to `last`, in track order. -/
def getClipsInRange (track : Track) (first last : Int) : List Clip :=
  track.clips.filter fun c =>
    decide (c.startPosition ≤ last ∧ first ≤ c.startPosition + c.length)

/-- Modelled from the spec: `Track::getClip n` (outside the excerpt) returns
the n-th clip of the track.  The source asserts `numOfClips() > clipNum`
before calling it, so the out-of-range case (undefined behaviour in C++) is
modelled as returning no clip. -/
def getClip (track : Track) (n : Int) : Option Clip :=
  track.clips.get? n.toNat

/-- Per-track clip collection of the first loop of
`TrackContainer::automatedValuesFromTracks` (part_000:261-281): muted tracks
are skipped; automation, hidden-automation and BB tracks contribute either
their clips in the range 0..time (when `clipNum < 0`) or their clipNum-th
clip; other track types contribute nothing. -/
def clipsFromTrack (track : Track) (time clipNum : Int) : List Clip :=
  if track.muted then []
  else
    match track.ttype with
    | TrackType.AutomationTrack | TrackType.HiddenAutomationTrack | TrackType.BBTrack =>
      if clipNum < 0 then getClipsInRange track 0 time
      else
        match getClip track clipNum with
        | some c => [c]
        | none => []
    | _ => []

/-- The clip vector built by the first loop of `automatedValuesFromTracks`,
appending each track's contribution in track order. -/
def collectClips : List Track → Int → Int → List Clip
  | [], _, _ => []
  | t :: ts, time, clipNum =>
    clipsFromTrack t time clipNum ++ collectClips ts time clipNum

/-- Body of the second loop of `automatedValuesFromTracks`
(part_000:287-329): fold one clip into the value map.  Muted clips and clips
starting strictly after `time` are skipped; automation clips write their
value at the (possibly clamped) relative time into the map for each of their
objects; BB clips merge the nested container's values.  `Int.tmod` is the
truncating `%` of C++. -/
def applyClip (env : BBEnv) (time : Int) (valueMap : AVMap) (clip : Clip) : AVMap :=
  if clip.muted = true ∨ clip.startPosition > time then valueMap
  else
    match clip.kind with
    | ClipKind.automation hasAuto autoResize valueAt objects =>
      if hasAuto = false then valueMap
      else
        let relTime : Int := time - clip.startPosition
        let relTime : Int := if !autoResize then min relTime clip.length else relTime
        let value := valueAt relTime
        objects.foldl (fun m model => avSet m model value) valueMap
    | ClipKind.bb bbIndex =>
      let bbTime : Int := min (time - clip.startPosition) clip.length
      let bbTime : Int := Int.tmod bbTime (env.lengthOfBB bbIndex * env.ticksPerBar)
      (env.bbValuesAt bbTime bbIndex).foldl (fun m kv => avSet m kv.1 kv.2) valueMap
    | ClipKind.other => valueMap

/-- `TrackContainer::automatedValuesFromTracks` (part_000:257-332). -/
def automatedValuesFromTracks (env : BBEnv) (tracks : List Track)
    (time clipNum : Int) : AVMap :=
  (collectClips tracks time clipNum).foldl (applyClip env time) []

/-- Accesses to the track list and operations on `m_tracksMutex` performed by
a `TrackContainer` member function, in program order, used to check the
locking discipline. -/
inductive Access where
  | acquireRead
  | acquireWrite
  | release
  | readList
  | writeList
  deriving DecidableEq, Repr

/-- The state of a `TrackContainer`: the guarded track list, the two virtual
node names, and the engine-global `Engine::getSong()` modified flag that
`removeTrack` sets. -/
structure TrackContainer where
  m_tracks : List Track
  className : String
  nodeName : String
  songModified : Bool

/-- Modelled from the spec: the `tracks()` accessor (TrackContainer.h,
outside the excerpt) returns the container's `m_tracks`. -/
def TrackContainer.tracks (c : TrackContainer) : List Track := c.m_tracks

/-- `TrackContainer::automatedValuesAt` (part_000:251-254). -/
def automatedValuesAt (env : BBEnv) (c : TrackContainer) (time clipNum : Int) : AVMap :=
  automatedValuesFromTracks env c.tracks time clipNum

/-- The `TrackContainer()` constructor (part_000:45-51): an empty list.  The
virtual node names are those of the concrete subclass. -/
def mkContainer (cn nn : String) : TrackContainer :=
  { m_tracks := [], className := cn, nodeName := nn, songModified := false }

/-- Result of a mutating container operation: the new state, the list/lock
access trace, and the Qt signals emitted (signal name with track id). -/
structure OpResult where
  state : TrackContainer
  access : List Access
  signals : List (String × Nat)

/-- `TrackContainer::addTrack` (part_000:174-185).  The track's own
`lock()`/`unlock()` guard the track object, not the container list, and are
not part of the list-access trace. -/
def addTrack (c : TrackContainer) (t : Track) : OpResult :=
  if t.ttype ≠ TrackType.HiddenAutomationTrack then
    { state := { c with m_tracks := c.m_tracks ++ [t] }
      access := [Access.acquireWrite, Access.writeList, Access.release]
      signals := [("trackAdded", t.id)] }
  else
    { state := c, access := [], signals := [] }

/-- `QVector::indexOf` on `m_tracks` (pointer comparison): the index of the
first entry with identity `k`, or -1 when there is none. -/
def indexOfId : List Track → Nat → Int
  | [], _ => -1
  | tr :: ts, k =>
    if tr.id = k then 0
    else
      let r := indexOfId ts k
      if r = -1 then -1 else r + 1

/-- Modelled from the spec: `Track::setSolo false` (Track.cpp, outside the
excerpt) clears the solo flag of the pointed-to track object; applied through
the pointer it is visible at every list entry aliasing that object.  Its
further effect of restoring other tracks' mute states is not modelled (no
claim depends on it). -/
def clearSoloOf (tracks : List Track) (k : Nat) : List Track :=
  tracks.map fun tr => if tr.id = k then { tr with solo := false } else tr

/-- `TrackContainer::removeTrack` (part_000:190-211): under the write lock,
look up the track; if found, clear its solo flag when set, remove it, and
mark the song modified. -/
def removeTrack (c : TrackContainer) (t : Track) : OpResult :=
  let index := indexOfId c.m_tracks t.id
  if index = -1 then
    { state := c
      access := [Access.acquireWrite, Access.readList, Access.release]
      signals := [] }
  else
    let stored := c.m_tracks.getD index.toNat t
    let tracks1 := if stored.solo then clearSoloOf c.m_tracks t.id else c.m_tracks
    { state := { c with m_tracks := tracks1.eraseIdx index.toNat, songModified := true }
      access := [Access.acquireWrite, Access.readList, Access.writeList, Access.release]
      signals := [] }

/-- Access trace of `TrackContainer::clearAllTracks` (part_000:223-231).  The
`lockForWrite`/`unlock` calls are commented out in the source; each loop
iteration reads the list twice (`isEmpty()` and `first()`), and the final
`isEmpty()` check reads once more.  `delete m_tracks.first()` runs the track
destructor (outside the excerpt), which removes the track from the list; the
destructor's own accesses are not traced here. -/
def clearAccess : List Track → List Access
  | [] => [Access.readList]
  | _ :: ts => Access.readList :: Access.readList :: clearAccess ts

/-- `TrackContainer::clearAllTracks` (part_000:223-231). -/
def clearAllTracks (c : TrackContainer) : OpResult :=
  { state := { c with m_tracks := [] }
    access := clearAccess c.m_tracks
    signals := [] }

/-- `TrackContainer::isEmpty` (part_000:236-247): iterate `m_tracks` with no
lock, returning false at the first track owning a clip; one list access per
iterator step, plus the final end-of-list check. -/
def isEmptyGo : List Track → Bool × List Access
  | [] => (true, [Access.readList])
  | t :: ts =>
    let r := if t.clips.isEmpty then isEmptyGo ts else (false, [])
    (r.1, Access.readList :: r.2)

/-- `TrackContainer::isEmpty` applied to a container state. -/
def isEmptyOp (c : TrackContainer) : Bool × List Access :=
  isEmptyGo c.m_tracks

/-- The counting loop of `TrackContainer::countTracks` (part_000:156-169). -/
def countTracksGo : List Track → TrackType → Int
  | [], _ => 0
  | tr :: ts, tt =>
    (if tr.ttype = tt ∨ tt = TrackType.NumTrackTypes then 1 else 0) + countTracksGo ts tt

/-- `TrackContainer::countTracks` (part_000:156-169): count under the read
lock, one list access per track. -/
def countTracks (c : TrackContainer) (tt : TrackType) : Int × List Access :=
  (countTracksGo c.m_tracks tt,
    (Access.acquireRead :: List.replicate c.m_tracks.length Access.readList)
      ++ [Access.release])

/-- A serialized DOM element (`QDomElement`): tag name, attributes, and the
children appended so far (each child abstracted to its serialized form). -/
structure DomElement where
  tagName : String
  attrs : List (String × String)
  children : List String

/-- Modelled from the spec: `QDomElement::setAttribute` replaces the value of
an existing attribute or appends the attribute. -/
def setAttr : List (String × String) → String → String → List (String × String)
  | [], k, v => [(k, v)]
  | (k0, v0) :: rest, k, v =>
    if k0 = k then (k0, v) :: rest else (k0, v0) :: setAttr rest k v

/-- `TrackContainer::saveSettings` (part_000:64-76): set the element's tag
name to `classNodeName()` and its "type" attribute to `nodeName()`, then,
under the read lock, append each track's saved state in list order. -/
def saveSettings (c : TrackContainer) (e : DomElement) : DomElement × List Access :=
  let e1 := { e with tagName := c.className }
  let e2 := { e1 with attrs := setAttr e1.attrs "type" c.nodeName }
  let e3 := { e2 with
    children := c.m_tracks.foldl (fun cs tr => cs ++ [tr.savedState]) e2.children }
  (e3,
    (Access.acquireRead :: List.replicate c.m_tracks.length Access.readList)
      ++ [Access.release])

/-- The state of `m_tracksMutex` (a `QReadWriteLock`). -/
inductive LockSt where
  | unlocked
  | readLocked
  | writeLocked
  deriving DecidableEq, Repr

/-- A trace respects the read/write locking discipline: reading the list
requires at least the read lock, writing it the write lock, and
acquire/release must pair up. -/
def wellLockedFrom : LockSt → List Access → Bool
  | _, [] => true
  | LockSt.unlocked, Access.acquireRead :: es => wellLockedFrom LockSt.readLocked es
  | LockSt.unlocked, Access.acquireWrite :: es => wellLockedFrom LockSt.writeLocked es
  | LockSt.readLocked, Access.release :: es => wellLockedFrom LockSt.unlocked es
  | LockSt.writeLocked, Access.release :: es => wellLockedFrom LockSt.unlocked es
  | LockSt.readLocked, Access.readList :: es => wellLockedFrom LockSt.readLocked es
  | LockSt.writeLocked, Access.readList :: es => wellLockedFrom LockSt.writeLocked es
  | LockSt.writeLocked, Access.writeList :: es => wellLockedFrom LockSt.writeLocked es
  | _, _ :: _ => false

/-- A trace starting from the unlocked state respects the lock discipline. -/
def wellLocked (es : List Access) : Bool :=
  wellLockedFrom LockSt.unlocked es

/-- The MIDI event types dispatched on by `LooperCtrl::processInEvent`. -/
inductive MidiEventType where
  | MidiProgramChange
  | MidiControlChange
  | MidiOther
  deriving DecidableEq, Repr

/-- A MIDI event as read by `processInEvent`: type, channel, key and
velocity. -/
structure MidiEvent where
  mtype : MidiEventType
  channel : Int
  key : Int
  velocity : Int

/-- Modelled from the spec: the `PendingAction` enumeration of `LooperCtrl`
is declared in the plugin's header, which is missing from the excerpt.  Its
order is reconstructed from its uses in looper.cpp: actions queued by plain
`setPendingAction` calls lie below `ProtectedAction`, while `StopRecord`
lies above it — clearing it requires `setPendingAction(NoAction, true)`
(preempt, looper.cpp:667) and `m_pendingAction = StopRecord` is only ever
assigned directly, bypassing the guard. -/
inductive PendingAction where
  | NoAction
  | ToggleMuteTrack
  | StartRecord
  | ProtectedAction
  | StopRecord
  deriving DecidableEq, Repr

/-- Numeric value of a `PendingAction`, for the `<` comparison of the C++
enum in `setPendingAction`. -/
def PendingAction.toNat : PendingAction → Nat
  | PendingAction.NoAction => 0
  | PendingAction.ToggleMuteTrack => 1
  | PendingAction.StartRecord => 2
  | PendingAction.ProtectedAction => 3
  | PendingAction.StopRecord => 4

/-- The clip colors of the Looper (m_colNormal). -/
def m_colNormal : Int := 0

/-- The clip color used while recording (m_colRecording). -/
def m_colRecording : Int := 1

/-- The clip color used for a queued action (m_colQueuedAction). -/
def m_colQueuedAction : Int := 2

/-- The state read and written by the `LooperCtrl` methods: the six MIDI key
bindings (channel/key pairs), the pending action, the option flags, and the
engine state the methods reach through singletons — the song's playing flag
and track list, the piano roll's recording flag and current MIDI clip (we
keep the identity of the track owning it), the custom clip colors applied by
`setColor`, the tracks whose clip notes were cleared, and the last track
passed to `setupTrack`. -/
structure LooperCtrl where
  m_play : Int × Int
  m_record : Int × Int
  m_muteCurrent : Int × Int
  m_unmuteAll : Int × Int
  m_solo : Int × Int
  m_clearNotes : Int × Int
  m_pendingAction : PendingAction
  m_useColors : Bool
  songPlaying : Bool
  recording : Bool
  currentClip : Option Nat
  tracks : List Track
  clipColors : List (Nat × Int)
  clearedNotes : List Nat
  lastSetup : Option Int

/-- `LooperCtrl::setColor` (looper.cpp:877-887): when colors are enabled and
a current MIDI clip exists, set that clip's custom color. -/
def setColor (st : LooperCtrl) (c : Int) : LooperCtrl :=
  if st.m_useColors = false then st
  else
    match st.currentClip with
    | none => st
    | some tid => { st with clipColors := avSet st.clipColors tid c }

/-- `LooperCtrl::setPendingAction` (looper.cpp:860-874): set the pending
action when preempting or when the current one is below `ProtectedAction`,
and show the matching clip color. -/
def setPendingAction (st : LooperCtrl) (action : PendingAction) (preempt : Bool) : LooperCtrl :=
  if preempt = true ∨ st.m_pendingAction.toNat < PendingAction.ProtectedAction.toNat then
    let st1 := { st with m_pendingAction := action }
    match action with
    | PendingAction.NoAction => setColor st1 m_colNormal
    | _ => setColor st1 m_colQueuedAction
  else st

/-- Modelled from the spec: `Song::playSong` (outside the excerpt) starts
song playback. -/
def playSong (st : LooperCtrl) : LooperCtrl :=
  { st with songPlaying := true }

/-- Modelled from the spec: `Song::stop` (outside the excerpt) stops
playback. -/
def songStop (st : LooperCtrl) : LooperCtrl :=
  { st with songPlaying := false }

/-- Modelled from the spec: `PianoRoll::recordAccompany` (outside the
excerpt) starts recording on the piano roll while playing the song along. -/
def recordAccompany (st : LooperCtrl) : LooperCtrl :=
  { st with recording := true, songPlaying := true }

/-- Modelled from the spec: `PianoRoll::stopRecording` (outside the
excerpt) stops recording on the piano roll. -/
def stopRecording (st : LooperCtrl) : LooperCtrl :=
  { st with recording := false }

/-- `LooperCtrl::toggleRecord` (looper.cpp:736-771). -/
def toggleRecord (st : LooperCtrl) : LooperCtrl :=
  if st.recording then setColor (stopRecording st) m_colNormal
  else if st.songPlaying then
    if st.currentClip = none then st
    else setPendingAction st PendingAction.StartRecord false
  else
    let st1 := setColor (recordAccompany st) m_colRecording
    { st1 with m_pendingAction := PendingAction.StopRecord }

/-- `LooperCtrl::togglePlay` (looper.cpp:710-733). -/
def togglePlay (st : LooperCtrl) : LooperCtrl :=
  if st.recording then toggleRecord st
  else if st.songPlaying then setPendingAction (songStop st) PendingAction.NoAction false
  else playSong st

/-- The loop of `LooperCtrl::getInstrumentTrackAt` (looper.cpp:777-783):
`position` is compared with 0 and decremented at each instrument track, `i`
counts every track. -/
def getInstrumentTrackAtGo : List Track → Int → Int → Int
  | [], _, _ => -1
  | t :: ts, position, i =>
    if t.ttype = TrackType.InstrumentTrack then
      if position = 0 then i else getInstrumentTrackAtGo ts (position - 1) (i + 1)
    else getInstrumentTrackAtGo ts position (i + 1)

/-- `LooperCtrl::getInstrumentTrackAt` (looper.cpp:774-785), as a function of
the song's track list. -/
def getInstrumentTrackAt (tracks : List Track) (position : Int) : Int :=
  getInstrumentTrackAtGo tracks position 0

/-- `LooperCtrl::setupTrack` (looper.cpp:789-857): its effect — MIDI-port
subscriptions and the timeline loop points — lies outside the modelled state;
the model records which track was set up. -/
def setupTrack (st : LooperCtrl) (trackId : Int) : LooperCtrl :=
  { st with lastSetup := some trackId }

/-- The solo flag currently stored for the track with identity `k`
(`track->isSolo()` read through the pointer). -/
def soloOf (tracks : List Track) (k : Nat) : Bool :=
  ((tracks.find? fun tr => decide (tr.id = k)).map Track.solo).getD false

/-- Modelled from the spec: `Track::setSolo` (outside the excerpt) applied
through the pointer of the current clip's track; modelled as writing the
flipped solo flag at every list entry aliasing that object. -/
def toggleSoloOf (tracks : List Track) (k : Nat) (cur : Bool) : List Track :=
  tracks.map fun tr => if tr.id = k then { tr with solo := !cur } else tr

/-- The unmute-all loop of `processInEvent` (looper.cpp:589-595): set
`muted = false` on every track of instrument type, leaving the others
untouched. -/
def unmuteAllTracks (tracks : List Track) : List Track :=
  tracks.map fun t =>
    if t.ttype = TrackType.InstrumentTrack then { t with muted := false } else t

/-- `LooperCtrl::processInEvent` (looper.cpp:548-615): dispatch a MIDI event,
returning the new state and the emitted signals (`trackChanged`).  A Program
Change selects an instrument track; a Control Change with nonzero velocity is
matched against the six bindings in source order.  `MidiClip::clearNotes`
(outside the excerpt) is recorded by the track id whose clip was cleared. -/
def processInEvent (st : LooperCtrl) (ev : MidiEvent) : LooperCtrl × List (String × Int) :=
  if ev.mtype = MidiEventType.MidiProgramChange then
    let trackId := getInstrumentTrackAt st.tracks ev.key
    if trackId = -1 then (st, [])
    else (setupTrack st trackId, [("trackChanged", trackId)])
  else if ev.mtype = MidiEventType.MidiControlChange then
    if ev.velocity = 0 then (st, [])
    else if ev.channel = st.m_play.1 ∧ ev.key = st.m_play.2 then
      (togglePlay st, [])
    else if ev.channel = st.m_record.1 ∧ ev.key = st.m_record.2 then
      (toggleRecord st, [])
    else if ev.channel = st.m_muteCurrent.1 ∧ ev.key = st.m_muteCurrent.2 then
      (setPendingAction st PendingAction.ToggleMuteTrack false, [])
    else if ev.channel = st.m_unmuteAll.1 ∧ ev.key = st.m_unmuteAll.2 then
      ({ st with tracks := unmuteAllTracks st.tracks }, [])
    else if ev.channel = st.m_solo.1 ∧ ev.key = st.m_solo.2 then
      match st.currentClip with
      | none => (st, [])
      | some tid =>
        ({ st with tracks := toggleSoloOf st.tracks tid (soloOf st.tracks tid) }, [])
    else if ev.channel = st.m_clearNotes.1 ∧ ev.key = st.m_clearNotes.2 then
      match st.currentClip with
      | none => (st, [])
      | some tid => ({ st with clearedNotes := st.clearedNotes ++ [tid] }, [])
    else (st, [])
  else (st, [])

/-- Indices, within the full track list, of the tracks of instrument type, in
order: the specification-side reading of "the (k+1)-th track of instrument
type". -/
def instrumentIndices : List Track → List Int
  | [] => []
  | t :: ts =>
    if t.ttype = TrackType.InstrumentTrack then
      0 :: (instrumentIndices ts).map (· + 1)
    else (instrumentIndices ts).map (· + 1)

/-- The number of tracks of instrument type in the list. -/
def instrumentCount (tracks : List Track) : Nat :=
  (tracks.filter fun t => decide (t.ttype = TrackType.InstrumentTrack)).length

/-- Remove the first occurrence of identity `k` from a list of identities,
keeping the rest in place and in order: the specification-side description of
`removeTrack`'s effect on the track list. -/
def eraseFirstId : List Nat → Nat → List Nat
  | [], _ => []
  | x :: xs, k => if x = k then xs else x :: eraseFirstId xs k

/-- Claim C1: for every BB environment, every container state, every time and
every clip number, `automatedValuesAt` returns exactly the map computed by
the static `automatedValuesFromTracks` on the container's own track list. -/
theorem automatedValuesAt_eq_fromTracks (env : BBEnv) (c : TrackContainer)
    (time clipNum : Int) :
    automatedValuesAt env c time clipNum
      = automatedValuesFromTracks env c.tracks time clipNum := rfl

lemma clipsFromTrack_muted (t : Track) (time clipNum : Int) (h : t.muted = true) :
    clipsFromTrack t time clipNum = [] := by
  simp [clipsFromTrack, h]

lemma collectClips_filter_muted :
    ∀ (ts : List Track) (time clipNum : Int),
      collectClips ts time clipNum
        = collectClips (ts.filter fun tr => !tr.muted) time clipNum := by
  intro ts time clipNum
  induction ts with
  | nil => rfl
  | cons t ts ih =>
    by_cases h : t.muted = true
    · simp [collectClips, List.filter, h, clipsFromTrack_muted t time clipNum h, ih]
    · simp only [Bool.not_eq_true] at h
      simp [collectClips, List.filter, h, ih]

/-- Claim C2: `automatedValuesFromTracks` resolves automation values indexed
at `time`: a muted track contributes no entries; a clip that is muted or
starts strictly after `time` contributes no entries; a contributing
automation clip stores, for each of its objects, the clip's value at
`time - startPosition`, clamped to the clip length when the clip does not
auto-resize. -/
theorem automatedValuesFromTracks_resolution (env : BBEnv) :
    (∀ (tracks : List Track) (time clipNum : Int),
      automatedValuesFromTracks env tracks time clipNum
        = automatedValuesFromTracks env (tracks.filter fun tr => !tr.muted) time clipNum)
  ∧ (∀ (time : Int) (m : AVMap) (clip : Clip),
      clip.muted = true ∨ clip.startPosition > time →
        applyClip env time m clip = m)
  ∧ (∀ (time : Int) (m : AVMap) (clip : Clip) (ar : Bool) (va : Int → Int)
        (objects : List Nat),
      clip.kind = ClipKind.automation true ar va objects →
      clip.muted = false →
      clip.startPosition ≤ time →
        applyClip env time m clip
          = objects.foldl
              (fun mm model =>
                avSet mm model
                  (va (if !ar then min (time - clip.startPosition) clip.length
                       else time - clip.startPosition))) m) := by
  refine ⟨?_, ?_, ?_⟩
  · intro tracks time clipNum
    unfold automatedValuesFromTracks
    rw [collectClips_filter_muted tracks time clipNum]
  · intro time m clip h
    unfold applyClip
    rw [if_pos h]
  · intro time m clip ar va objects hk hmut hle
    have hcond : ¬(clip.muted = true ∨ clip.startPosition > time) := by
      rw [hmut]
      simp
      omega
    unfold applyClip
    rw [if_neg hcond, hk]
    simp

lemma foldl_append_savedState :
    ∀ (l : List Track) (init : List String),
      l.foldl (fun cs tr => cs ++ [tr.savedState]) init
        = init ++ l.map Track.savedState := by
  intro l
  induction l with
  | nil => intro init; simp
  | cons x xs ih => intro init; simp [List.foldl, ih]

/-- Claim C5: `saveSettings` sets the element's tag name to `classNodeName()`
and its "type" attribute to `nodeName()`, then appends each track's saved
state exactly once, in list order. -/
theorem saveSettings_serialization (c : TrackContainer) (e : DomElement) :
    (saveSettings c e).1
      = { tagName := c.className
          attrs := setAttr e.attrs "type" c.nodeName
          children := e.children ++ c.m_tracks.map Track.savedState } := by
  simp [saveSettings, foldl_append_savedState]

lemma addTrack_fold_no_hidden :
    ∀ (ts : List Track) (c : TrackContainer),
      (∀ tr ∈ c.m_tracks, tr.ttype ≠ TrackType.HiddenAutomationTrack) →
      ∀ tr ∈ (ts.foldl (fun s t => (addTrack s t).state) c).m_tracks,
        tr.ttype ≠ TrackType.HiddenAutomationTrack := by
  intro ts
  induction ts with
  | nil => intro c hc tr htr; exact hc tr htr
  | cons t ts ih =>
    intro c hc tr htr
    refine ih _ ?_ tr htr
    intro tr2 htr2
    change tr2 ∈ (addTrack c t).state.m_tracks at htr2
    by_cases ht : t.ttype = TrackType.HiddenAutomationTrack
    · have : (addTrack c t).state = c := by simp [addTrack, ht]
      rw [this] at htr2
      exact hc tr2 htr2
    · have : (addTrack c t).state.m_tracks = c.m_tracks ++ [t] := by
        simp [addTrack, ht]
      rw [this] at htr2
      rcases List.mem_append.mp htr2 with h2 | h2
      · exact hc tr2 h2
      · rw [List.mem_singleton.mp h2]; exact ht

/-- Claim C8: adding a hidden automation track leaves the container state
(in particular the track list) unchanged and emits no `trackAdded` signal;
consequently a container mutated only through `addTrack`, starting from the
constructor's empty list, never contains a hidden automation track. -/
theorem addTrack_hidden_invariant :
    (∀ (c : TrackContainer) (t : Track),
      t.ttype = TrackType.HiddenAutomationTrack →
        (addTrack c t).state = c ∧ (addTrack c t).signals = [])
  ∧ (∀ (cn nn : String) (ts : List Track),
      ∀ tr ∈ (ts.foldl (fun s t => (addTrack s t).state) (mkContainer cn nn)).m_tracks,
        tr.ttype ≠ TrackType.HiddenAutomationTrack) := by
  constructor
  · intro c t ht
    constructor <;> simp [addTrack, ht]
  · intro cn nn ts tr htr
    refine addTrack_fold_no_hidden ts (mkContainer cn nn) ?_ tr htr
    intro tr2 htr2
    simp [mkContainer] at htr2

lemma indexOfId_nonneg :
    ∀ (ts : List Track) (k : Nat),
      indexOfId ts k = -1 ∨ 0 ≤ indexOfId ts k := by
  intro ts k
  induction ts with
  | nil => left; rfl
  | cons tr ts ih =>
    by_cases h : tr.id = k
    · right; simp [indexOfId, h]
    · simp only [indexOfId, if_neg h]
      by_cases hr : indexOfId ts k = -1
      · left; simp [hr]
      · right
        rw [if_neg hr]
        have h0 : 0 ≤ indexOfId ts k := (ih.resolve_left hr)
        omega

lemma indexOfId_eq_neg_iff :
    ∀ (ts : List Track) (k : Nat),
      indexOfId ts k = -1 ↔ k ∉ ts.map Track.id := by
  intro ts k
  induction ts with
  | nil => simp [indexOfId]
  | cons tr ts ih =>
    simp only [indexOfId, List.map_cons, List.mem_cons]
    by_cases h : tr.id = k
    · simp [h]
    · rw [if_neg h]
      by_cases hr : indexOfId ts k = -1
      · rw [if_pos hr]
        constructor
        · intro _
          rintro (hk | hk)
          · exact h hk.symm
          · exact ih.mp hr hk
        · intro _; rfl
      · rw [if_neg hr]
        have h0 : 0 ≤ indexOfId ts k := (indexOfId_nonneg ts k).resolve_left hr
        constructor
        · intro habs
          exact absurd habs (by omega)
        · intro hmem
          exact absurd (ih.mpr fun hk => hmem (Or.inr hk)) hr

/-- Claim C9: when the given track (by object identity) is not in the
container's list, `removeTrack` leaves the whole container state — the track
list, every track's flags, and the song-modified flag — unchanged. -/
theorem removeTrack_absent_noop (c : TrackContainer) (t : Track)
    (h : t.id ∉ c.m_tracks.map Track.id) :
    (removeTrack c t).state = c := by
  have hidx : indexOfId c.m_tracks t.id = -1 := (indexOfId_eq_neg_iff c.m_tracks t.id).mpr h
  simp [removeTrack, hidx]

lemma wellLockedFrom_read_replicate :
    ∀ (n : Nat),
      wellLockedFrom LockSt.readLocked
        (List.replicate n Access.readList ++ [Access.release]) = true := by
  intro n
  induction n with
  | zero => rfl
  | succ m ih =>
    rw [List.replicate_succ, List.cons_append]
    exact ih

lemma wellLockedFrom_unlocked_read (es : List Access) :
    wellLockedFrom LockSt.unlocked (Access.readList :: es) = false := rfl

/-- Claim C3 (amended): `saveSettings` and `countTracks` access the track
list under the read lock, `addTrack` and `removeTrack` under the write lock,
but `isEmpty` and `clearAllTracks` access the list with no lock held. -/
theorem lock_discipline_amended (c : TrackContainer) (e : DomElement)
    (tt : TrackType) (t : Track) :
    wellLocked (saveSettings c e).2 = true
  ∧ wellLocked (countTracks c tt).2 = true
  ∧ wellLocked (addTrack c t).access = true
  ∧ wellLocked (removeTrack c t).access = true
  ∧ wellLocked (isEmptyOp c).2 = false
  ∧ wellLocked (clearAllTracks c).access = false := by
  refine ⟨?_, ?_, ?_, ?_, ?_, ?_⟩
  · have htr : (saveSettings c e).2
        = (Access.acquireRead :: List.replicate c.m_tracks.length Access.readList)
            ++ [Access.release] := rfl
    rw [wellLocked, htr, List.cons_append]
    exact wellLockedFrom_read_replicate c.m_tracks.length
  · have htr : (countTracks c tt).2
        = (Access.acquireRead :: List.replicate c.m_tracks.length Access.readList)
            ++ [Access.release] := rfl
    rw [wellLocked, htr, List.cons_append]
    exact wellLockedFrom_read_replicate c.m_tracks.length
  · by_cases h : t.ttype = TrackType.HiddenAutomationTrack
    · simp [addTrack, h, wellLocked, wellLockedFrom]
    · simp [addTrack, h, wellLocked, wellLockedFrom]
  · by_cases h : indexOfId c.m_tracks t.id = -1
    · simp [removeTrack, h, wellLocked, wellLockedFrom]
    · simp [removeTrack, h, wellLocked, wellLockedFrom]
  · obtain ⟨ts, cn, nn, sm⟩ := c
    cases ts with
    | nil => rfl
    | cons t0 ts0 => exact wellLockedFrom_unlocked_read _
  · obtain ⟨ts, cn, nn, sm⟩ := c
    cases ts with
    | nil => rfl
    | cons t0 ts0 => rfl

/-- A concrete instrument track used by the concrete checks below. -/
def trackW : Track :=
  { id := 1, ttype := TrackType.InstrumentTrack, muted := false, solo := false
    clips := [], savedState := "t1" }

/-- A concrete container holding `trackW`. -/
def containerW : TrackContainer :=
  { m_tracks := [trackW], className := "trackcontainer", nodeName := "song"
    songModified := false }

/-- Claim C3 counterexample: on a concrete container, `isEmpty` and
`clearAllTracks` access the track list with no lock held, refuting the claim
that every list access of the listed operations happens under the lock. -/
theorem lock_discipline_counterexample :
    wellLocked (isEmptyOp containerW).2 = false
  ∧ wellLocked (clearAllTracks containerW).access = false := by
  exact ⟨rfl, rfl⟩

lemma eraseFirstId_not_mem :
    ∀ (l : List Nat) (k : Nat), k ∉ l → eraseFirstId l k = l := by
  intro l k
  induction l with
  | nil => intro _; rfl
  | cons x xs ih =>
    intro h
    simp only [List.mem_cons, not_or] at h
    rw [eraseFirstId, if_neg fun hk => h.1 hk.symm, ih h.2]

lemma map_id_eraseIdx :
    ∀ (l : List Track) (n : Nat),
      (l.eraseIdx n).map Track.id = (l.map Track.id).eraseIdx n := by
  intro l
  induction l with
  | nil => intro n; rfl
  | cons x xs ih =>
    intro n
    cases n with
    | zero => rfl
    | succ m => simp [List.eraseIdx, ih]

lemma map_id_clearSoloOf (ts : List Track) (k : Nat) :
    (clearSoloOf ts k).map Track.id = ts.map Track.id := by
  unfold clearSoloOf
  induction ts with
  | nil => rfl
  | cons tr ts ih =>
    simp only [List.map_cons, ih]
    by_cases h : tr.id = k <;> simp [h]

lemma eraseIdx_indexOfId :
    ∀ (ts : List Track) (k : Nat), indexOfId ts k ≠ -1 →
      (ts.map Track.id).eraseIdx (indexOfId ts k).toNat
        = eraseFirstId (ts.map Track.id) k := by
  intro ts
  induction ts with
  | nil => intro k h; exact absurd rfl h
  | cons tr ts ih =>
    intro k h
    by_cases hh : tr.id = k
    · simp [indexOfId, hh, eraseFirstId, List.eraseIdx]
    · simp only [indexOfId, if_neg hh] at h ⊢
      by_cases hr : indexOfId ts k = -1
      · rw [if_pos hr] at h
        exact absurd rfl h
      · rw [if_neg hr] at h ⊢
        have h0 : 0 ≤ indexOfId ts k := (indexOfId_nonneg ts k).resolve_left hr
        have ht : (indexOfId ts k + 1).toNat = (indexOfId ts k).toNat + 1 := by omega
        rw [ht]
        simp only [List.map_cons, List.eraseIdx, eraseFirstId]
        rw [if_neg fun hk => hh hk]
        exact congrArg (tr.id :: ·) (ih k hr)

/-- Claim C4: `addTrack` appends a non-hidden track at the end, leaving the
previously stored tracks in place and in order, and `removeTrack` removes
exactly the first occurrence of the given track (by object identity),
preserving the relative order of the remaining tracks. -/
theorem track_list_order_preservation (c : TrackContainer) (t : Track) :
    (t.ttype ≠ TrackType.HiddenAutomationTrack →
      (addTrack c t).state.m_tracks = c.m_tracks ++ [t])
  ∧ (removeTrack c t).state.m_tracks.map Track.id
      = eraseFirstId (c.m_tracks.map Track.id) t.id := by
  constructor
  · intro h
    simp [addTrack, h]
  · by_cases hidx : indexOfId c.m_tracks t.id = -1
    · simp only [removeTrack, if_pos hidx]
      exact (eraseFirstId_not_mem _ _ ((indexOfId_eq_neg_iff _ _).mp hidx)).symm
    · simp only [removeTrack, if_neg hidx]
      rw [map_id_eraseIdx]
      cases hsolo : (c.m_tracks.getD (indexOfId c.m_tracks t.id).toNat t).solo
      · rw [if_neg Bool.false_ne_true]
        exact eraseIdx_indexOfId c.m_tracks t.id hidx
      · rw [if_pos rfl, map_id_clearSoloOf]
        exact eraseIdx_indexOfId c.m_tracks t.id hidx

/-- A concrete automation track used by the concrete checks below. -/
def trackW2 : Track :=
  { id := 2, ttype := TrackType.AutomationTrack, muted := false, solo := false
    clips := [], savedState := "t2" }

/-- Witness for claim C4 at a concrete container and track. -/
theorem track_list_order_preservation_witness :
    (addTrack containerW trackW2).state.m_tracks = containerW.m_tracks ++ [trackW2] :=
  (track_list_order_preservation containerW trackW2).1 (by decide)

/-- A concrete BB environment used by the concrete checks below. -/
def envW : BBEnv :=
  { lengthOfBB := fun _ => 4, bbValuesAt := fun _ _ => [], ticksPerBar := 192 }

/-- A concrete muted clip. -/
def clipMutedW : Clip :=
  { muted := true, startPosition := 0, length := 8, kind := ClipKind.other }

/-- A concrete non-auto-resizing automation clip with one connected object. -/
def clipAutoW : Clip :=
  { muted := false, startPosition := 2, length := 4
    kind := ClipKind.automation true false (fun x => x * 10) [7] }

/-- Witness for claim C2: a muted clip contributes nothing, and a concrete
automation clip stores its value at the clamped relative time. -/
theorem automatedValuesFromTracks_resolution_witness :
    applyClip envW 9 [] clipMutedW = [] ∧ applyClip envW 9 [] clipAutoW = [(7, 40)] := by
  constructor
  · exact (automatedValuesFromTracks_resolution envW).2.1 9 [] clipMutedW (Or.inl rfl)
  · have h := (automatedValuesFromTracks_resolution envW).2.2 9 [] clipAutoW false
      (fun x => x * 10) [7] rfl rfl (by decide)
    rw [h]
    decide

/-- A concrete hidden automation track. -/
def hiddenW : Track :=
  { id := 9, ttype := TrackType.HiddenAutomationTrack, muted := false, solo := false
    clips := [], savedState := "h" }

/-- Witness for claim C8 at a concrete container and hidden track. -/
theorem addTrack_hidden_invariant_witness :
    (addTrack containerW hiddenW).state = containerW
  ∧ (addTrack containerW hiddenW).signals = [] :=
  addTrack_hidden_invariant.1 containerW hiddenW rfl

/-- A concrete track absent from `containerW`. -/
def trackW5 : Track :=
  { id := 5, ttype := TrackType.InstrumentTrack, muted := false, solo := false
    clips := [], savedState := "t5" }

/-- Witness for claim C9 at a concrete container and absent track. -/
theorem removeTrack_absent_noop_witness :
    (removeTrack containerW trackW5).state = containerW :=
  removeTrack_absent_noop containerW trackW5 (by decide)

lemma getGo_neg :
    ∀ (ts : List Track) (pos i : Int), pos < 0 →
      getInstrumentTrackAtGo ts pos i = -1 := by
  intro ts
  induction ts with
  | nil => intro pos i _; rfl
  | cons t ts ih =>
    intro pos i h
    by_cases ht : t.ttype = TrackType.InstrumentTrack
    · simp only [getInstrumentTrackAtGo, if_pos ht]
      rw [if_neg (by omega)]
      exact ih _ _ (by omega)
    · simp only [getInstrumentTrackAtGo, if_neg ht]
      exact ih _ _ h

lemma instrumentCount_cons_pos (t : Track) (ts : List Track)
    (ht : t.ttype = TrackType.InstrumentTrack) :
    instrumentCount (t :: ts) = instrumentCount ts + 1 := by
  simp [instrumentCount, List.filter_cons, ht]

lemma instrumentCount_cons_neg (t : Track) (ts : List Track)
    (ht : ¬t.ttype = TrackType.InstrumentTrack) :
    instrumentCount (t :: ts) = instrumentCount ts := by
  simp [instrumentCount, List.filter_cons, ht]

lemma getGo_ge :
    ∀ (ts : List Track) (pos i : Int), (instrumentCount ts : Int) ≤ pos →
      getInstrumentTrackAtGo ts pos i = -1 := by
  intro ts
  induction ts with
  | nil => intro pos i _; rfl
  | cons t ts ih =>
    intro pos i h
    by_cases ht : t.ttype = TrackType.InstrumentTrack
    · rw [instrumentCount_cons_pos t ts ht] at h
      simp only [getInstrumentTrackAtGo, if_pos ht]
      rw [if_neg (by push_cast at h ⊢; omega)]
      refine ih _ _ ?_
      push_cast at h ⊢
      omega
    · rw [instrumentCount_cons_neg t ts ht] at h
      simp only [getInstrumentTrackAtGo, if_neg ht]
      exact ih _ _ h

lemma getGo_get? :
    ∀ (ts : List Track) (pos i : Int), 0 ≤ pos →
      pos < (instrumentCount ts : Int) →
      (instrumentIndices ts).get? pos.toNat
        = some (getInstrumentTrackAtGo ts pos i - i) := by
  intro ts
  induction ts with
  | nil =>
    intro pos i h0 h1
    simp [instrumentCount] at h1
    omega
  | cons t ts ih =>
    intro pos i h0 h1
    by_cases ht : t.ttype = TrackType.InstrumentTrack
    · rw [instrumentCount_cons_pos t ts ht] at h1
      simp only [instrumentIndices, if_pos ht, getInstrumentTrackAtGo]
      by_cases hp : pos = 0
      · subst hp
        rw [if_pos rfl]
        simp
      · rw [if_neg hp]
        have htn : pos.toNat = (pos - 1).toNat + 1 := by omega
        rw [htn]
        simp only [List.get?_cons_succ]
        rw [List.get?_map,
          ih (pos - 1) (i + 1) (by omega) (by push_cast at h1 ⊢; omega)]
        simp only [Option.map_some']
        congr 1
        omega
    · rw [instrumentCount_cons_neg t ts ht] at h1
      simp only [instrumentIndices, if_neg ht, getInstrumentTrackAtGo]
      rw [List.get?_map, ih pos (i + 1) h0 h1]
      simp only [Option.map_some']
      congr 1
      omega

/-- Claim C10: `getInstrumentTrackAt position` returns -1 for every negative
position and for every position at or beyond the number of instrument
tracks, and otherwise the index, within the full track list, of the
(position+1)-th track of instrument type. -/
theorem getInstrumentTrackAt_spec (tracks : List Track) (position : Int) :
    (position < 0 → getInstrumentTrackAt tracks position = -1)
  ∧ ((instrumentCount tracks : Int) ≤ position →
      getInstrumentTrackAt tracks position = -1)
  ∧ (0 ≤ position → position < (instrumentCount tracks : Int) →
      (instrumentIndices tracks).get? position.toNat
        = some (getInstrumentTrackAt tracks position)) := by
  refine ⟨fun h => getGo_neg tracks position 0 h,
          fun h => getGo_ge tracks position 0 h, ?_⟩
  intro h0 h1
  have h := getGo_get? tracks position 0 h0 h1
  simpa using h

/-- A concrete BB track used by the concrete checks below. -/
def trackBBW : Track :=
  { id := 4, ttype := TrackType.BBTrack, muted := true, solo := false
    clips := [], savedState := "b" }

/-- A concrete track list: a BB track followed by two instrument tracks. -/
def tracksW10 : List Track := [trackBBW, trackW, trackW5]

/-- Witness for claim C10 at a concrete track list: position 1 finds the
second instrument track (list index 2), and negative positions yield -1. -/
theorem getInstrumentTrackAt_spec_witness :
    (instrumentIndices tracksW10).get? (1 : Int).toNat
      = some (getInstrumentTrackAt tracksW10 1)
  ∧ getInstrumentTrackAt tracksW10 (-3) = -1 :=
  ⟨(getInstrumentTrackAt_spec tracksW10 1).2.2 (by decide) (by decide),
   (getInstrumentTrackAt_spec tracksW10 (-3)).1 (by decide)⟩

lemma setColor_proj (st : LooperCtrl) (c : Int) :
    (setColor st c).recording = st.recording
  ∧ (setColor st c).songPlaying = st.songPlaying
  ∧ (setColor st c).m_pendingAction = st.m_pendingAction := by
  unfold setColor
  split
  · exact ⟨rfl, rfl, rfl⟩
  · split
    · exact ⟨rfl, rfl, rfl⟩
    · exact ⟨rfl, rfl, rfl⟩

lemma setPendingAction_proj (st : LooperCtrl) (a : PendingAction) (p : Bool) :
    (setPendingAction st a p).songPlaying = st.songPlaying
  ∧ (setPendingAction st a p).recording = st.recording
  ∧ (setPendingAction st a p).m_pendingAction
      = (if p = true ∨ st.m_pendingAction.toNat < PendingAction.ProtectedAction.toNat
         then a else st.m_pendingAction) := by
  unfold setPendingAction
  split
  case isTrue h =>
    cases a <;>
      exact ⟨(setColor_proj _ _).2.1, (setColor_proj _ _).1, (setColor_proj _ _).2.2⟩
  case isFalse h =>
    exact ⟨rfl, rfl, rfl⟩

/-- Claim C6 (amended): a Control Change event with nonzero velocity whose
channel and key equal the play binding dispatches `togglePlay`, which stops
recording when the piano roll is recording; otherwise, when the song is
playing, stops the song and clears the pending action unless that action is
protected (at or above `ProtectedAction` in the enum), in which case the
pending action is left unchanged; otherwise starts song playback. -/
theorem looper_play_dispatch (st : LooperCtrl) (ev : MidiEvent)
    (hty : ev.mtype = MidiEventType.MidiControlChange)
    (hvel : ev.velocity ≠ 0)
    (hch : ev.channel = st.m_play.1) (hkey : ev.key = st.m_play.2) :
    (processInEvent st ev).1 = togglePlay st
  ∧ (st.recording = true → (togglePlay st).recording = false)
  ∧ (st.recording = false → st.songPlaying = true →
      (togglePlay st).songPlaying = false
    ∧ (togglePlay st).m_pendingAction
        = (if st.m_pendingAction.toNat < PendingAction.ProtectedAction.toNat
           then PendingAction.NoAction else st.m_pendingAction))
  ∧ (st.recording = false → st.songPlaying = false →
      (togglePlay st).songPlaying = true) := by
  refine ⟨?_, ?_, ?_, ?_⟩
  · rw [processInEvent, if_neg (by rw [hty]; decide), if_pos hty, if_neg hvel,
      if_pos ⟨hch, hkey⟩]
  · intro hrec
    rw [togglePlay, if_pos hrec, toggleRecord, if_pos hrec]
    exact (setColor_proj _ _).1
  · intro hrec hplay
    rw [togglePlay, if_neg (by simp [hrec]), if_pos hplay]
    constructor
    · exact (setPendingAction_proj _ _ _).1
    · have h3 : (setPendingAction (songStop st) PendingAction.NoAction false).m_pendingAction
          = (if st.m_pendingAction.toNat < PendingAction.ProtectedAction.toNat
             then PendingAction.NoAction else st.m_pendingAction) := by
        simpa [songStop] using
          (setPendingAction_proj (songStop st) PendingAction.NoAction false).2.2
      exact h3
  · intro hrec hplay
    rw [togglePlay, if_neg (by simp [hrec]), if_neg (by simp [hplay])]
    rfl

/-- A concrete Looper controller state with six distinct bindings, idle. -/
def stPlayW : LooperCtrl :=
  { m_play := (0, 1), m_record := (0, 2), m_muteCurrent := (0, 3)
    m_unmuteAll := (0, 4), m_solo := (0, 5), m_clearNotes := (0, 6)
    m_pendingAction := PendingAction.NoAction, m_useColors := false
    songPlaying := false, recording := false, currentClip := none
    tracks := [], clipColors := [], clearedNotes := [], lastSetup := none }

/-- A concrete Control Change event on the play binding of `stPlayW`. -/
def evPlayW : MidiEvent :=
  { mtype := MidiEventType.MidiControlChange, channel := 0, key := 1, velocity := 100 }

/-- Witness for claim C6: in the idle state, the play event starts song
playback. -/
theorem looper_play_dispatch_witness :
    (togglePlay stPlayW).songPlaying = true :=
  (looper_play_dispatch stPlayW evPlayW rfl (by decide) rfl rfl).2.2.2 rfl rfl

/-- A concrete state: song playing, not recording, protected pending action. -/
def stPlayP : LooperCtrl :=
  { stPlayW with songPlaying := true, m_pendingAction := PendingAction.StopRecord }

/-- Claim C6 counterexample: with the song playing, no recording, and the
protected pending action `StopRecord`, the play event stops the song but the
pending action is not cleared, refuting "the pending action cleared". -/
theorem looper_play_counterexample :
    (processInEvent stPlayP evPlayW).1.songPlaying = false
  ∧ (processInEvent stPlayP evPlayW).1.m_pendingAction = PendingAction.StopRecord := by
  decide

lemma pair_ne_branch (ev : MidiEvent) (a b : Int × Int)
    (hch : ev.channel = a.1) (hkey : ev.key = a.2) (hne : a ≠ b) :
    ¬(ev.channel = b.1 ∧ ev.key = b.2) := by
  rintro ⟨h1, h2⟩
  apply hne
  have e1 : a.1 = b.1 := by rw [← hch, h1]
  have e2 : a.2 = b.2 := by rw [← hkey, h2]
  obtain ⟨a1, a2⟩ := a
  obtain ⟨b1, b2⟩ := b
  simp only at e1 e2
  rw [e1, e2]

/-- Claim C7 (amended): a Control Change event with nonzero velocity whose
channel and key equal the unmute-all binding — provided that binding differs,
as a channel/key pair, from the play, record and mute-current bindings —
makes `processInEvent` set `muted` to false on every track of instrument
type, leaving every non-instrument track (and the rest of the state)
unchanged. -/
theorem looper_unmuteAll_frame (st : LooperCtrl) (ev : MidiEvent)
    (hty : ev.mtype = MidiEventType.MidiControlChange)
    (hvel : ev.velocity ≠ 0)
    (hch : ev.channel = st.m_unmuteAll.1) (hkey : ev.key = st.m_unmuteAll.2)
    (hp : st.m_unmuteAll ≠ st.m_play)
    (hr : st.m_unmuteAll ≠ st.m_record)
    (hm : st.m_unmuteAll ≠ st.m_muteCurrent) :
    (processInEvent st ev).1
      = { st with tracks := st.tracks.map fun t =>
            if t.ttype = TrackType.InstrumentTrack then { t with muted := false }
            else t } := by
  rw [processInEvent, if_neg (by rw [hty]; decide), if_pos hty, if_neg hvel,
    if_neg (pair_ne_branch ev _ _ hch hkey hp),
    if_neg (pair_ne_branch ev _ _ hch hkey hr),
    if_neg (pair_ne_branch ev _ _ hch hkey hm),
    if_pos ⟨hch, hkey⟩]
  rfl

/-- A concrete muted instrument track. -/
def trackMutedInstr : Track :=
  { id := 3, ttype := TrackType.InstrumentTrack, muted := true, solo := false
    clips := [], savedState := "i" }

/-- A concrete Looper state with a muted instrument track and a muted BB
track. -/
def stUnmuteW : LooperCtrl := { stPlayW with tracks := [trackMutedInstr, trackBBW] }

/-- A concrete Control Change event on the unmute-all binding of
`stUnmuteW`. -/
def evUnmuteW : MidiEvent :=
  { mtype := MidiEventType.MidiControlChange, channel := 0, key := 4, velocity := 1 }

/-- Witness for claim C7: the unmute-all event unmutes the instrument track
and leaves the BB track muted. -/
theorem looper_unmuteAll_frame_witness :
    (processInEvent stUnmuteW evUnmuteW).1
      = { stUnmuteW with
          tracks := [{ trackMutedInstr with muted := false }, trackBBW] } := by
  have h := looper_unmuteAll_frame stUnmuteW evUnmuteW rfl (by decide) rfl rfl
    (by decide) (by decide) (by decide)
  exact h.trans (by rfl)

/-- A concrete Looper state whose unmute-all binding collides with the play
binding. -/
def stUnmuteC : LooperCtrl :=
  { stPlayW with m_unmuteAll := (0, 1), tracks := [trackMutedInstr] }

/-- Claim C7 counterexample: when the unmute-all binding equals the play
binding, an event matching the unmute-all binding is dispatched to the play
action instead, and the muted instrument track stays muted, refuting the
claim as stated. -/
theorem looper_unmuteAll_counterexample :
    (evPlayW.channel = stUnmuteC.m_unmuteAll.1
      ∧ evPlayW.key = stUnmuteC.m_unmuteAll.2 ∧ evPlayW.velocity ≠ 0)
  ∧ (processInEvent stUnmuteC evPlayW).1.tracks.map Track.muted ≠ [false] := by
  decide

end LMMS
